import Mathlib

/-!
Verification of `xpp::input_validator` (src/include/xeus-cpp/input_validator.hpp).

The validator consumes the token stream the compiler's preprocessor produces for a
code fragment and classifies the fragment as complete, incomplete or invalid,
while accumulating the fragments of one REPL turn in a buffer.  The lexer itself
is an external collaborator, so the embedding takes a fragment both as its raw
string (used only for the buffer) and as the token list the preprocessor yields
for it; concrete examples supply the tokenization of the concrete strings.
-/

set_option maxHeartbeats 1000000

namespace XeusCpp

/-- Verdicts of `input_validator::validate` (`ValidationResult` in the source). -/
inductive ValidationResult where
  | complete
  | incomplete
  | invalid
  | unknown
  deriving DecidableEq

/-- Token kinds (`clang::tok::TokenKind`) that the validator's switch inspects,
plus enough surrounding kinds to express the concrete example fragments. -/
inductive TokKind where
  | unknown
  | identifier
  | numeric_constant
  | l_square
  | r_square
  | l_paren
  | r_paren
  | l_brace
  | r_brace
  | less
  | greater
  | semi
  | comma
  | hash
  deriving DecidableEq

/-- Numeric value of each kind, following the declaration order of clang's
TokenKinds.def: `unknown` is 0, each closing bracket kind immediately follows its
opening kind (the property `validate` relies on through its `tos + 1`
comparison), and all kinds are pairwise distinct. -/
def tokCode : TokKind → Nat
  | .unknown => 0
  | .identifier => 5
  | .numeric_constant => 7
  | .l_square => 19
  | .r_square => 20
  | .l_paren => 21
  | .r_paren => 22
  | .l_brace => 23
  | .r_brace => 24
  | .less => 46
  | .greater => 51
  | .semi => 61
  | .comma => 64
  | .hash => 65

/-- A lexed token: its kind and the raw character data the validator reads when
the token stands in directive position after a `#`. -/
structure Token where
  kind : TokKind
  text : String
  deriving DecidableEq

/-- Stand-in for the `token`/`lastSeenToken` variables before the first
`preprocessor.Lex` call. -/
def initTok : Token := ⟨.unknown, ""⟩

/-- Opening bracket kinds of the first switch case. -/
def isOpenerKind (k : TokKind) : Bool :=
  k == .l_square || k == .l_brace || k == .l_paren

/-- Closing bracket kinds of the second switch case. -/
def isCloserKind (k : TokKind) : Bool :=
  k == .r_square || k == .r_brace || k == .r_paren

/-- C `isspace`. -/
def isCSpace (c : Char) : Bool :=
  c == ' ' || c == '\t' || c == '\n' || c == '\x0b' || c == '\x0c' || c == '\r'

/-- Models `llvm::StringRef::startswith`. -/
def textStartsWith (s pre : String) : Bool :=
  pre.data.isPrefixOf s.data

/-- Guard of the `endif` arm of the hash case: the directive text begins with
`endif` and character 5 is past the end, a `/`, or whitespace. -/
def endifGuard (s : String) : Bool :=
  textStartsWith s "endif" &&
    (s.data.length == 5 ||
      (match (s.data.drop 5).head? with
       | some c => c == '/' || isCSpace c
       | none => false))

/-- One run of the token loop of `input_validator::validate`: `st` is
`parenStack` (top of stack at the head), `prev` holds the value of `token` left
by the previous iteration, and the list holds the not-yet-lexed tokens of the
fragment (`eof` is the end of the list; lexing past it keeps yielding `eof`).
Returns the final `parenStack`, the loop's `result`, and `lastSeenToken` as they
stand when the loop exits (on `eof` or on `result == invalid`). -/
def scan (st : List Nat) (prev : Token) : List Token → List Nat × ValidationResult × Token
  | [] => (st, .complete, prev)
  | t :: ts =>
    if isOpenerKind t.kind then
      scan (tokCode t.kind :: st) t ts
    else if isCloserKind t.kind then
      if tokCode t.kind == st.headD (tokCode .unknown) + 1 then
        let st1 := st.tail
        let st2 := if t.kind == .r_brace && st1.length == 1
            && st1.headD 0 == tokCode .less then st1.tail else st1
        scan st2 t ts
      else
        (st, .invalid, prev)
    else if t.kind == .hash then
      match ts with
      | [] => (st, .complete, prev)
      | d :: ts' =>
        if textStartsWith d.text "if" then
          scan (tokCode .hash :: st) d ts'
        else if endifGuard d.text then
          match st with
          | [] => (st, .invalid, prev)
          | c :: rest =>
            if c == tokCode .hash then scan rest d ts' else (st, .invalid, prev)
        else
          scan st d ts'
    else
      scan st t ts

/-- Trailing adjustment after the loop: a trailing comma (`should_continue`)
forces `incomplete`, and a non-empty stack not already flagged invalid forces
`incomplete`; otherwise the loop's result stands. -/
def postResult (st : List Nat) (res : ValidationResult) (lastSeen : Token) : ValidationResult :=
  if lastSeen.kind == .comma || (!st.isEmpty && !(res == .invalid)) then
    .incomplete
  else
    res

/-- State of one `input_validator` instance. -/
structure Validator where
  input : String
  parenStack : List Nat
  lastResult : ValidationResult
  deriving DecidableEq

/-- A freshly constructed `input_validator`. -/
def freshValidator : Validator := ⟨"", [], .complete⟩

/-- Models `input_validator::validate`.  The fragment is given both as the raw
string `code` (only appended to the buffer) and as the token list the
preprocessor produces for it. -/
def validate (v : Validator) (code : String) (toks : List Token) :
    ValidationResult × Validator :=
  let s := scan v.parenStack initTok toks
  let result := postResult s.1 s.2.1 s.2.2
  let input' := if v.input = "" then code else v.input ++ "\n" ++ code
  (result, ⟨input', s.1, result⟩)

/-- Models `input_validator::reset` called with a (necessarily empty) output
argument: the accumulated buffer is moved out and returned. -/
def reset (v : Validator) : String × Validator :=
  (v.input, ⟨"", [], .complete⟩)

/-- Models `input_validator::reset` called with a null argument: the accumulated
buffer is discarded. -/
def resetDiscard (v : Validator) : Validator :=
  ⟨"", [], .complete⟩

/-- Opener corresponding to a closing bracket kind (the explicit pairing table
the spec words the matching rule with). -/
def openerOf : TokKind → Option TokKind
  | .r_square => some .l_square
  | .r_paren => some .l_paren
  | .r_brace => some .l_brace
  | _ => none

/-- Balance-stack semantics exactly as the spec's data-model section words it:
an opener or `#if`-class directive pushes, a closer pops exactly when the top of
the stack is the corresponding opener (explicit pairing, terminal invalid
otherwise), an `#endif` pops exactly when the top is the conditional marker, and
nothing else touches the stack.  The special template-marker closing rule is
deliberately absent: its marker never occurs on the stack. -/
def specScan (st : List Nat) : List Token → List Nat × ValidationResult
  | [] => (st, .complete)
  | t :: ts =>
    if isOpenerKind t.kind then
      specScan (tokCode t.kind :: st) ts
    else if isCloserKind t.kind then
      match st with
      | [] => (st, .invalid)
      | c :: rest =>
        if (openerOf t.kind).map tokCode == some c then specScan rest ts else (st, .invalid)
    else if t.kind == .hash then
      match ts with
      | [] => (st, .complete)
      | d :: ts' =>
        if textStartsWith d.text "if" then
          specScan (tokCode .hash :: st) ts'
        else if endifGuard d.text then
          match st with
          | [] => (st, .invalid)
          | c :: rest =>
            if c == tokCode .hash then specScan rest ts' else (st, .invalid)
        else
          specScan st ts'
    else
      specScan st ts

/-- Codes that can appear on `parenStack`: the three bracket openers and the
preprocessor-conditional marker. -/
def stackPushable (st : List Nat) : Prop :=
  ∀ x ∈ st, x = tokCode .l_square ∨ x = tokCode .l_paren ∨ x = tokCode .l_brace
    ∨ x = tokCode .hash

theorem closer_not_opener (k : TokKind) (h : isCloserKind k = true) :
    isOpenerKind k = false := by
  cases k <;> simp_all [isOpenerKind, isCloserKind]

theorem closer_ne_hash (k : TokKind) (h : isCloserKind k = true) : k ≠ .hash := by
  cases k <;> simp_all [isCloserKind]

theorem closer_ne_comma (k : TokKind) (h : isCloserKind k = true) : k ≠ .comma := by
  cases k <;> simp_all [isCloserKind]

theorem opener_ne_comma (k : TokKind) (h : isOpenerKind k = true) : k ≠ .comma := by
  cases k <;> simp_all [isOpenerKind]

theorem opener_ne_hash (k : TokKind) (h : isOpenerKind k = true) : k ≠ .hash := by
  cases k <;> simp_all [isOpenerKind]

theorem scan_step_opener (st : List Nat) (prev t : Token) (ts : List Token)
    (h : isOpenerKind t.kind = true) :
    scan st prev (t :: ts) = scan (tokCode t.kind :: st) t ts := by
  conv_lhs => rw [scan.eq_def]
  simp [h]

theorem scan_step_closer_ok (st : List Nat) (prev t : Token) (ts : List Token)
    (h2 : isCloserKind t.kind = true)
    (h3 : (tokCode t.kind == st.headD (tokCode .unknown) + 1) = true) :
    scan st prev (t :: ts) =
      scan (if t.kind == .r_brace && st.tail.length == 1
          && st.tail.headD 0 == tokCode .less then st.tail.tail else st.tail) t ts := by
  have h3' : tokCode t.kind = st.head?.getD (tokCode .unknown) + 1 := by
    simpa using h3
  conv_lhs => rw [scan.eq_def]
  simp [closer_not_opener t.kind h2, h2, h3']

theorem scan_step_closer_bad (st : List Nat) (prev t : Token) (ts : List Token)
    (h2 : isCloserKind t.kind = true)
    (h3 : (tokCode t.kind == st.headD (tokCode .unknown) + 1) = false) :
    scan st prev (t :: ts) = (st, .invalid, prev) := by
  have h3' : ¬ tokCode t.kind = st.head?.getD (tokCode .unknown) + 1 := by
    simpa using h3
  conv_lhs => rw [scan.eq_def]
  simp [closer_not_opener t.kind h2, h2, h3']

theorem scan_step_hash_nil (st : List Nat) (prev t : Token) (h : t.kind = .hash) :
    scan st prev [t] = (st, .complete, prev) := by
  have h1 : isOpenerKind t.kind = false := by rw [h]; rfl
  have h2 : isCloserKind t.kind = false := by rw [h]; rfl
  conv_lhs => rw [scan.eq_def]
  simp [h, isOpenerKind, isCloserKind]

theorem scan_step_hash_if (st : List Nat) (prev t d : Token) (ts : List Token)
    (h : t.kind = .hash) (hd : textStartsWith d.text "if" = true) :
    scan st prev (t :: d :: ts) = scan (tokCode .hash :: st) d ts := by
  have h1 : isOpenerKind t.kind = false := by rw [h]; rfl
  have h2 : isCloserKind t.kind = false := by rw [h]; rfl
  conv_lhs => rw [scan.eq_def]
  simp [h, hd, isOpenerKind, isCloserKind]

theorem scan_step_hash_endif_pop (st : List Nat) (prev t d : Token) (ts : List Token)
    (h : t.kind = .hash) (hd1 : textStartsWith d.text "if" = false)
    (hd2 : endifGuard d.text = true)
    (htop : st.headD 0 = tokCode .hash) (hne : st ≠ []) :
    scan st prev (t :: d :: ts) = scan st.tail d ts := by
  have h1 : isOpenerKind t.kind = false := by rw [h]; rfl
  have h2 : isCloserKind t.kind = false := by rw [h]; rfl
  match st, hne with
  | c :: rest, _ =>
    simp only [List.headD_cons] at htop
    conv_lhs => rw [scan.eq_def]
    simp [h, hd1, hd2, htop, isOpenerKind, isCloserKind]

theorem scan_step_hash_endif_bad (st : List Nat) (prev t d : Token) (ts : List Token)
    (h : t.kind = .hash) (hd1 : textStartsWith d.text "if" = false)
    (hd2 : endifGuard d.text = true)
    (htop : st.headD 0 ≠ tokCode .hash ∨ st = []) :
    scan st prev (t :: d :: ts) = (st, .invalid, prev) := by
  have h1 : isOpenerKind t.kind = false := by rw [h]; rfl
  have h2 : isCloserKind t.kind = false := by rw [h]; rfl
  match st with
  | [] =>
    conv_lhs => rw [scan.eq_def]
    simp [h, hd1, hd2, isOpenerKind, isCloserKind]
  | c :: rest =>
    rcases htop with htop | htop
    · simp only [List.headD_cons] at htop
      conv_lhs => rw [scan.eq_def]
      simp [h, hd1, hd2, htop, isOpenerKind, isCloserKind]
    · exact absurd htop (by simp)

theorem scan_step_hash_other (st : List Nat) (prev t d : Token) (ts : List Token)
    (h : t.kind = .hash) (hd1 : textStartsWith d.text "if" = false)
    (hd2 : endifGuard d.text = false) :
    scan st prev (t :: d :: ts) = scan st d ts := by
  have h1 : isOpenerKind t.kind = false := by rw [h]; rfl
  have h2 : isCloserKind t.kind = false := by rw [h]; rfl
  conv_lhs => rw [scan.eq_def]
  simp [h, hd1, hd2, isOpenerKind, isCloserKind]

theorem scan_step_other (st : List Nat) (prev t : Token) (ts : List Token)
    (h1 : isOpenerKind t.kind = false) (h2 : isCloserKind t.kind = false)
    (h3 : t.kind ≠ .hash) :
    scan st prev (t :: ts) = scan st t ts := by
  conv_lhs => rw [scan.eq_def]
  simp [h1, h2, h3]

theorem closer_code_ne_one (k : TokKind) (hk : isCloserKind k = true) :
    tokCode k ≠ tokCode .unknown + 1 := by
  cases k <;> simp_all [isCloserKind, tokCode]

theorem closer_match_iff (k : TokKind) (hk : isCloserKind k = true) (c : Nat) :
    tokCode k = c + 1 ↔ (openerOf k).map tokCode = some c := by
  cases k <;> simp_all [isCloserKind, openerOf, tokCode] <;> omega

/-- When the loop consumes every token without turning invalid, `lastSeenToken`
is the fragment's final token (unless that token is a `#`, which swallows the
position after it). -/
theorem scan_getLastD (st : List Nat) (prev : Token) (ts : List Token) :
    (scan st prev ts).2.1 ≠ .invalid → (ts.getLastD prev).kind ≠ .hash →
    (scan st prev ts).2.2 = ts.getLastD prev := by
  induction st, prev, ts using scan.induct with
  | case1 st prev => intro _ _; simp [scan]
  | case2 st prev d ts' hop ih =>
    rw [scan_step_opener st prev d ts' hop, List.getLastD_cons]
    exact ih
  | case3 st prev d ts' h1 h2 h3 st1 st2 ih =>
    rw [scan_step_closer_ok st prev d ts' h2 h3, List.getLastD_cons]
    exact ih
  | case4 st prev d ts' h1 h2 h3 =>
    rw [scan_step_closer_bad st prev d ts' h2 (by simpa using h3)]
    intro hres _
    exact absurd rfl hres
  | case5 st prev d h1 h2 h3 =>
    rw [scan_step_hash_nil st prev d (by simpa using h3)]
    intro _ hk
    rw [List.getLastD_cons, List.getLastD_nil] at hk
    exact absurd (by simpa using h3) hk
  | case6 st prev d h1 h2 h3 d1 ts' hif ih =>
    rw [scan_step_hash_if st prev d d1 ts' (by simpa using h3) hif,
      List.getLastD_cons, List.getLastD_cons]
    exact ih
  | case7 prev d h1 h2 h3 d1 ts' hif hendif =>
    rw [scan_step_hash_endif_bad [] prev d d1 ts' (by simpa using h3)
      (by simpa using hif) hendif (Or.inr rfl)]
    intro hres _
    exact absurd rfl hres
  | case8 prev d h1 h2 h3 d1 ts' hif hendif c rest hc ih =>
    rw [scan_step_hash_endif_pop (c :: rest) prev d d1 ts' (by simpa using h3)
      (by simpa using hif) hendif (by simpa using hc) (by simp),
      List.getLastD_cons, List.getLastD_cons]
    exact ih
  | case9 prev d h1 h2 h3 d1 ts' hif hendif c rest hc =>
    rw [scan_step_hash_endif_bad (c :: rest) prev d d1 ts' (by simpa using h3)
      (by simpa using hif) hendif (Or.inl (by simpa using hc))]
    intro hres _
    exact absurd rfl hres
  | case10 st prev d h1 h2 h3 d1 ts' hif hendif ih =>
    rw [scan_step_hash_other st prev d d1 ts' (by simpa using h3)
      (by simpa using hif) (by simpa using hendif),
      List.getLastD_cons, List.getLastD_cons]
    exact ih
  | case11 st prev d ts' h1 h2 h3 ih =>
    rw [scan_step_other st prev d ts' (by simpa using h1) (by simpa using h2)
      (by simpa using h3), List.getLastD_cons]
    exact ih

theorem opener_code (k : TokKind) (h : isOpenerKind k = true) :
    tokCode k = tokCode .l_square ∨ tokCode k = tokCode .l_paren
      ∨ tokCode k = tokCode .l_brace := by
  cases k <;> simp_all [isOpenerKind, tokCode]

/-- Tokens with no structural effect leave the stack alone, keep the result
`complete`, and leave the fragment's final token as `lastSeenToken`. -/
theorem scan_nostructural (ts : List Token) (st : List Nat) (prev : Token)
    (h : ∀ t ∈ ts, isOpenerKind t.kind = false ∧ isCloserKind t.kind = false
      ∧ t.kind ≠ .hash) :
    scan st prev ts = (st, .complete, ts.getLastD prev) := by
  induction ts generalizing prev with
  | nil => simp [scan]
  | cons t ts ih =>
    obtain ⟨h1, h2, h3⟩ := h t (by simp)
    rw [scan_step_other st prev t ts h1 h2 h3, List.getLastD_cons]
    exact ih t fun u hu => h u (by simp [hu])

/-- Every entry of the stack after a scan was already on the stack before it or
is one of the four codes the loop pushes (the three bracket openers and the
conditional marker); in particular the template marker `less` is never pushed. -/
theorem scan_stack_elems (st : List Nat) (prev : Token) (ts : List Token) :
    ∀ x ∈ (scan st prev ts).1, x ∈ st ∨ x = tokCode .l_square ∨ x = tokCode .l_paren
      ∨ x = tokCode .l_brace ∨ x = tokCode .hash := by
  induction st, prev, ts using scan.induct with
  | case1 st prev => intro x hx; exact Or.inl (by simpa [scan] using hx)
  | case2 st prev d ts' hop ih =>
    rw [scan_step_opener st prev d ts' hop]
    intro x hx
    rcases ih x hx with hx' | hx'
    · rcases List.mem_cons.mp hx' with h | h
      · subst h
        rcases opener_code d.kind hop with h' | h' | h' <;> rw [h'] <;> simp [tokCode]
      · exact Or.inl h
    · exact Or.inr hx'
  | case3 st prev d ts' h1 h2 h3 st1 st2 ih =>
    rw [scan_step_closer_ok st prev d ts' h2 h3]
    intro x hx
    rcases ih x hx with hx' | hx'
    · refine Or.inl ?_
      have hx1 : x ∈ st.tail := by
        unfold_let st2 st1 at hx'
        split at hx'
        · exact List.tail_subset st.tail hx'
        · exact hx'
      exact List.tail_subset st hx1
    · exact Or.inr hx'
  | case4 st prev d ts' h1 h2 h3 =>
    rw [scan_step_closer_bad st prev d ts' h2 (by simpa using h3)]
    intro x hx
    exact Or.inl hx
  | case5 st prev d h1 h2 h3 =>
    rw [scan_step_hash_nil st prev d (by simpa using h3)]
    intro x hx
    exact Or.inl hx
  | case6 st prev d h1 h2 h3 d1 ts' hif ih =>
    rw [scan_step_hash_if st prev d d1 ts' (by simpa using h3) hif]
    intro x hx
    rcases ih x hx with hx' | hx'
    · rcases List.mem_cons.mp hx' with h | h
      · exact Or.inr (Or.inr (Or.inr (Or.inr h)))
      · exact Or.inl h
    · exact Or.inr hx'
  | case7 prev d h1 h2 h3 d1 ts' hif hendif =>
    rw [scan_step_hash_endif_bad [] prev d d1 ts' (by simpa using h3)
      (by simpa using hif) hendif (Or.inr rfl)]
    intro x hx
    exact Or.inl hx
  | case8 prev d h1 h2 h3 d1 ts' hif hendif c rest hc ih =>
    rw [scan_step_hash_endif_pop (c :: rest) prev d d1 ts' (by simpa using h3)
      (by simpa using hif) hendif (by simpa using hc) (by simp)]
    intro x hx
    rcases ih x hx with hx' | hx'
    · exact Or.inl (List.mem_cons_of_mem c hx')
    · exact Or.inr hx'
  | case9 prev d h1 h2 h3 d1 ts' hif hendif c rest hc =>
    rw [scan_step_hash_endif_bad (c :: rest) prev d d1 ts' (by simpa using h3)
      (by simpa using hif) hendif (Or.inl (by simpa using hc))]
    intro x hx
    exact Or.inl hx
  | case10 st prev d h1 h2 h3 d1 ts' hif hendif ih =>
    rw [scan_step_hash_other st prev d d1 ts' (by simpa using h3)
      (by simpa using hif) (by simpa using hendif)]
    exact ih
  | case11 st prev d ts' h1 h2 h3 ih =>
    rw [scan_step_other st prev d ts' (by simpa using h1) (by simpa using h2)
      (by simpa using h3)]
    exact ih

theorem specScan_step_opener (st : List Nat) (t : Token) (ts : List Token)
    (h : isOpenerKind t.kind = true) :
    specScan st (t :: ts) = specScan (tokCode t.kind :: st) ts := by
  conv_lhs => rw [specScan.eq_def]
  simp [h]

theorem specScan_step_closer_nil (t : Token) (ts : List Token)
    (h2 : isCloserKind t.kind = true) :
    specScan [] (t :: ts) = ([], .invalid) := by
  conv_lhs => rw [specScan.eq_def]
  simp [closer_not_opener t.kind h2, h2]

theorem specScan_step_closer_ok (c : Nat) (rest : List Nat) (t : Token) (ts : List Token)
    (h2 : isCloserKind t.kind = true)
    (hc : (openerOf t.kind).map tokCode = some c) :
    specScan (c :: rest) (t :: ts) = specScan rest ts := by
  conv_lhs => rw [specScan.eq_def]
  simp [closer_not_opener t.kind h2, h2, hc]

theorem specScan_step_closer_bad (c : Nat) (rest : List Nat) (t : Token) (ts : List Token)
    (h2 : isCloserKind t.kind = true)
    (hc : ¬ (openerOf t.kind).map tokCode = some c) :
    specScan (c :: rest) (t :: ts) = (c :: rest, .invalid) := by
  conv_lhs => rw [specScan.eq_def]
  simp [closer_not_opener t.kind h2, h2, hc]

theorem specScan_step_hash_nil (st : List Nat) (t : Token) (h : t.kind = .hash) :
    specScan st [t] = (st, .complete) := by
  conv_lhs => rw [specScan.eq_def]
  simp [h, isOpenerKind, isCloserKind]

theorem specScan_step_hash_if (st : List Nat) (t d : Token) (ts : List Token)
    (h : t.kind = .hash) (hd : textStartsWith d.text "if" = true) :
    specScan st (t :: d :: ts) = specScan (tokCode .hash :: st) ts := by
  conv_lhs => rw [specScan.eq_def]
  simp [h, hd, isOpenerKind, isCloserKind]

theorem specScan_step_hash_endif_pop (c : Nat) (rest : List Nat) (t d : Token)
    (ts : List Token) (h : t.kind = .hash) (hd1 : textStartsWith d.text "if" = false)
    (hd2 : endifGuard d.text = true) (htop : c = tokCode .hash) :
    specScan (c :: rest) (t :: d :: ts) = specScan rest ts := by
  conv_lhs => rw [specScan.eq_def]
  simp [h, hd1, hd2, htop, isOpenerKind, isCloserKind]

theorem specScan_step_hash_endif_nil (t d : Token) (ts : List Token)
    (h : t.kind = .hash) (hd1 : textStartsWith d.text "if" = false)
    (hd2 : endifGuard d.text = true) :
    specScan [] (t :: d :: ts) = ([], .invalid) := by
  conv_lhs => rw [specScan.eq_def]
  simp [h, hd1, hd2, isOpenerKind, isCloserKind]

theorem specScan_step_hash_endif_bad (c : Nat) (rest : List Nat) (t d : Token)
    (ts : List Token) (h : t.kind = .hash) (hd1 : textStartsWith d.text "if" = false)
    (hd2 : endifGuard d.text = true) (htop : c ≠ tokCode .hash) :
    specScan (c :: rest) (t :: d :: ts) = (c :: rest, .invalid) := by
  conv_lhs => rw [specScan.eq_def]
  simp [h, hd1, hd2, htop, isOpenerKind, isCloserKind]

theorem specScan_step_hash_other (st : List Nat) (t d : Token) (ts : List Token)
    (h : t.kind = .hash) (hd1 : textStartsWith d.text "if" = false)
    (hd2 : endifGuard d.text = false) :
    specScan st (t :: d :: ts) = specScan st ts := by
  conv_lhs => rw [specScan.eq_def]
  simp [h, hd1, hd2, isOpenerKind, isCloserKind]

theorem specScan_step_other (st : List Nat) (t : Token) (ts : List Token)
    (h1 : isOpenerKind t.kind = false) (h2 : isCloserKind t.kind = false)
    (h3 : t.kind ≠ .hash) :
    specScan st (t :: ts) = specScan st ts := by
  conv_lhs => rw [specScan.eq_def]
  simp [h1, h2, h3]

theorem opener_code_ne_less (k : TokKind) (h : isOpenerKind k = true) :
    tokCode k ≠ tokCode .less := by
  rcases opener_code k h with h' | h' | h' <;> rw [h'] <;> simp [tokCode]

/-- On stacks that do not carry the template marker, the loop's stack and result
agree with the spec-side balance semantics `specScan` (which has no
template-marker rule and matches closers through the explicit pairing table). -/
theorem scan_agree (st : List Nat) (prev : Token) (ts : List Token) :
    tokCode .less ∉ st →
    (scan st prev ts).1 = (specScan st ts).1
      ∧ (scan st prev ts).2.1 = (specScan st ts).2 := by
  induction st, prev, ts using scan.induct with
  | case1 st prev => intro _; simp [scan, specScan]
  | case2 st prev d ts' hop ih =>
    intro hless
    rw [scan_step_opener st prev d ts' hop, specScan_step_opener st d ts' hop]
    refine ih ?_
    intro hmem
    rcases List.mem_cons.mp hmem with h | h
    · exact opener_code_ne_less d.kind hop h.symm
    · exact hless h
  | case3 st prev d ts' h1 h2 h3 st1 st2 ih =>
    intro hless
    rw [scan_step_closer_ok st prev d ts' h2 h3]
    rcases hstv : st with _ | ⟨c, rest⟩
    · subst hstv
      exact absurd (by simpa using h3) (closer_code_ne_one d.kind h2)
    · subst hstv
      have hc : (openerOf d.kind).map tokCode = some c :=
        (closer_match_iff d.kind h2 c).mp (by simpa using h3)
      have hless' : tokCode .less ∉ rest := fun hmem => hless (List.mem_cons_of_mem c hmem)
      have hst2 : (if (d.kind == TokKind.r_brace && (c :: rest).tail.length == 1
          && (c :: rest).tail.headD 0 == tokCode .less) = true
          then (c :: rest).tail.tail else (c :: rest).tail) = rest := by
        match rest with
        | [] => simp
        | x :: rest' =>
          have hx : x ≠ tokCode .less := fun hx => hless' (by simp [hx])
          simp [hx]
      have hst2' : st2 = rest := hst2
      rw [hst2, specScan_step_closer_ok c rest d ts' h2 hc]
      rw [hst2'] at ih
      exact ih hless'
  | case4 st prev d ts' h1 h2 h3 =>
    intro hless
    rw [scan_step_closer_bad st prev d ts' h2 (by simpa using h3)]
    match st with
    | [] =>
      rw [specScan_step_closer_nil d ts' h2]
      exact ⟨rfl, rfl⟩
    | c :: rest =>
      have hc : ¬ (openerOf d.kind).map tokCode = some c := fun hcm =>
        (by simpa using h3 : ¬ tokCode d.kind = c + 1) ((closer_match_iff d.kind h2 c).mpr hcm)
      rw [specScan_step_closer_bad c rest d ts' h2 hc]
      exact ⟨rfl, rfl⟩
  | case5 st prev d h1 h2 h3 =>
    intro _
    rw [scan_step_hash_nil st prev d (by simpa using h3),
      specScan_step_hash_nil st d (by simpa using h3)]
    exact ⟨rfl, rfl⟩
  | case6 st prev d h1 h2 h3 d1 ts' hif ih =>
    intro hless
    rw [scan_step_hash_if st prev d d1 ts' (by simpa using h3) hif,
      specScan_step_hash_if st d d1 ts' (by simpa using h3) hif]
    refine ih ?_
    intro hmem
    rcases List.mem_cons.mp hmem with h | h
    · simp [tokCode] at h
    · exact hless h
  | case7 prev d h1 h2 h3 d1 ts' hif hendif =>
    intro _
    rw [scan_step_hash_endif_bad [] prev d d1 ts' (by simpa using h3)
      (by simpa using hif) hendif (Or.inr rfl),
      specScan_step_hash_endif_nil d d1 ts' (by simpa using h3)
      (by simpa using hif) hendif]
    exact ⟨rfl, rfl⟩
  | case8 prev d h1 h2 h3 d1 ts' hif hendif c rest hc ih =>
    intro hless
    rw [scan_step_hash_endif_pop (c :: rest) prev d d1 ts' (by simpa using h3)
      (by simpa using hif) hendif (by simpa using hc) (by simp),
      specScan_step_hash_endif_pop c rest d d1 ts' (by simpa using h3)
      (by simpa using hif) hendif (by simpa using hc)]
    exact ih fun hmem => hless (List.mem_cons_of_mem c hmem)
  | case9 prev d h1 h2 h3 d1 ts' hif hendif c rest hc =>
    intro _
    rw [scan_step_hash_endif_bad (c :: rest) prev d d1 ts' (by simpa using h3)
      (by simpa using hif) hendif (Or.inl (by simpa using hc)),
      specScan_step_hash_endif_bad c rest d d1 ts' (by simpa using h3)
      (by simpa using hif) hendif (by simpa using hc)]
    exact ⟨rfl, rfl⟩
  | case10 st prev d h1 h2 h3 d1 ts' hif hendif ih =>
    intro hless
    rw [scan_step_hash_other st prev d d1 ts' (by simpa using h3)
      (by simpa using hif) (by simpa using hendif),
      specScan_step_hash_other st d d1 ts' (by simpa using h3)
      (by simpa using hif) (by simpa using hendif)]
    exact ih hless
  | case11 st prev d ts' h1 h2 h3 ih =>
    intro hless
    rw [scan_step_other st prev d ts' (by simpa using h1) (by simpa using h2)
      (by simpa using h3),
      specScan_step_other st d ts' (by simpa using h1) (by simpa using h2)
      (by simpa using h3)]
    exact ih hless

/-- Closing bracket kind matching an opening bracket kind. -/
def matchingCloser : TokKind → TokKind
  | .l_square => .r_square
  | .l_paren => .r_paren
  | .l_brace => .r_brace
  | k => k

/-- Newline-joined concatenation of a list of fragments, as the spec's
round-trip property words it. -/
def newlineJoined : List String → String
  | [] => ""
  | [f] => f
  | f :: fs => f ++ "\n" ++ newlineJoined fs

/-- Buffer evolution across a sequence of `validate` calls: each element carries
one fragment as raw text and as its tokens. -/
def foldValidate (v : Validator) (calls : List (String × List Token)) : Validator :=
  calls.foldl (fun w p => (validate w p.1 p.2).2) v

/-- Helper mirroring how `joinInto b fs` accumulates fragments into a buffer
that already holds `b`. -/
def joinInto (b : String) : List String → String
  | [] => b
  | f :: fs => joinInto (if b = "" then f else b ++ "\n" ++ f) fs

/-- Tokens of the fragment ",)". -/
def toksCommaClose : List Token := [⟨.comma, ","⟩, ⟨.r_paren, ")"⟩]

/-- Tokens of the fragment "#endif". -/
def toksEndif : List Token := [⟨.hash, "#"⟩, ⟨.identifier, "endif"⟩]

/-- Tokens of the fragment "#if X". -/
def toksIfX : List Token := [⟨.hash, "#"⟩, ⟨.identifier, "if"⟩, ⟨.identifier, "X"⟩]

/-- Tokens of the fragment "foo(1, 2,". -/
def toksFooOpen : List Token :=
  [⟨.identifier, "foo"⟩, ⟨.l_paren, "("⟩, ⟨.numeric_constant, "1"⟩, ⟨.comma, ","⟩,
    ⟨.numeric_constant, "2"⟩, ⟨.comma, ","⟩]

/-- Tokens of the fragment "3)". -/
def toksThreeClose : List Token := [⟨.numeric_constant, "3"⟩, ⟨.r_paren, ")"⟩]

/-- Tokens of the fragment "Foo<Bar\x7b1,2\x7d>". -/
def toksFooBar : List Token :=
  [⟨.identifier, "Foo"⟩, ⟨.less, "<"⟩, ⟨.identifier, "Bar"⟩, ⟨.l_brace, "\x7b"⟩,
    ⟨.numeric_constant, "1"⟩, ⟨.comma, ","⟩, ⟨.numeric_constant, "2"⟩,
    ⟨.r_brace, "\x7d"⟩, ⟨.greater, ">"⟩]

/-- Tokens of the fragment "x;". -/
def toksStmt : List Token := [⟨.identifier, "x"⟩, ⟨.semi, ";"⟩]

theorem validate_fst (v : Validator) (c : String) (ts : List Token) :
    (validate v c ts).1 = postResult (scan v.parenStack initTok ts).1
      (scan v.parenStack initTok ts).2.1 (scan v.parenStack initTok ts).2.2 := rfl

theorem validate_parenStack (v : Validator) (c : String) (ts : List Token) :
    (validate v c ts).2.parenStack = (scan v.parenStack initTok ts).1 := rfl

theorem validate_input (v : Validator) (c : String) (ts : List Token) :
    (validate v c ts).2.input = if v.input = "" then c else v.input ++ "\n" ++ c := rfl

theorem matchingCloser_closer (k : TokKind) (h : isOpenerKind k = true) :
    isCloserKind (matchingCloser k) = true := by
  cases k <;> simp_all [isOpenerKind, isCloserKind, matchingCloser]

theorem scan_single_matching_closer (k : TokKind) (hop : isOpenerKind k = true) (s2 : String) :
    scan [tokCode k] initTok [⟨matchingCloser k, s2⟩]
      = ([], .complete, ⟨matchingCloser k, s2⟩) := by
  cases k
  case l_square =>
    rw [scan_step_closer_ok [tokCode .l_square] initTok ⟨matchingCloser .l_square, s2⟩ []
      (by rfl) (by rfl)]
    simp [scan, matchingCloser, tokCode]
  case l_paren =>
    rw [scan_step_closer_ok [tokCode .l_paren] initTok ⟨matchingCloser .l_paren, s2⟩ []
      (by rfl) (by rfl)]
    simp [scan, matchingCloser, tokCode]
  case l_brace =>
    rw [scan_step_closer_ok [tokCode .l_brace] initTok ⟨matchingCloser .l_brace, s2⟩ []
      (by rfl) (by rfl)]
    simp [scan, matchingCloser, tokCode]
  all_goals simp [isOpenerKind] at hop

theorem append_newline_ne_empty (a b : String) : a ++ "\n" ++ b ≠ "" := by
  intro hcontra
  have hdata := congrArg String.data hcontra
  have hn : ("\n" : String).data = ['\n'] := rfl
  simp [String.data_append, hn] at hdata

theorem newlineJoined_merge (gs : List String) (f g : String) :
    newlineJoined ((f ++ "\n" ++ g) :: gs) = f ++ "\n" ++ newlineJoined (g :: gs) := by
  cases gs with
  | nil => rfl
  | cons x xs =>
    show (f ++ "\n" ++ g) ++ "\n" ++ newlineJoined (x :: xs)
      = f ++ "\n" ++ (g ++ "\n" ++ newlineJoined (x :: xs))
    simp only [String.append_assoc]

theorem joinInto_eq_newlineJoined (fs : List String) :
    ∀ f : String, f ≠ "" → joinInto f fs = newlineJoined (f :: fs) := by
  induction fs with
  | nil => intro f _; rfl
  | cons g gs ih =>
    intro f hf
    show joinInto (if f = "" then g else f ++ "\n" ++ g) gs = _
    rw [if_neg hf, ih (f ++ "\n" ++ g) (append_newline_ne_empty f g), newlineJoined_merge]
    rfl

theorem foldValidate_input (calls : List (String × List Token)) :
    ∀ v : Validator, (foldValidate v calls).input = joinInto v.input (calls.map Prod.fst) := by
  induction calls with
  | nil => intro v; rfl
  | cons p ps ih =>
    intro v
    show (foldValidate (validate v p.1 p.2).2 ps).input = _
    rw [ih]
    rfl

/-- C1 (amended): a closing bracket met while the balance stack is empty or its
top is not the corresponding opener immediately terminates the scan with verdict
`invalid` and an unchanged stack, and `validate` then returns `invalid` — unless
the token observed immediately before the loop stopped is a comma, in which case
the trailing-comma continuation check displaces `invalid` to `incomplete`. -/
theorem C1_unmatched_closer_invalid_unless_comma :
    (∀ (st : List Nat) (prev t : Token) (ts : List Token),
      isCloserKind t.kind = true →
      (tokCode t.kind == st.headD (tokCode .unknown) + 1) = false →
      scan st prev (t :: ts) = (st, .invalid, prev))
    ∧ (∀ (v : Validator) (c : String) (ts : List Token),
      (scan v.parenStack initTok ts).2.1 = .invalid →
      (scan v.parenStack initTok ts).2.2.kind ≠ .comma →
      (validate v c ts).1 = .invalid)
    ∧ (∀ (v : Validator) (c : String) (ts : List Token),
      (scan v.parenStack initTok ts).2.1 = .invalid →
      (scan v.parenStack initTok ts).2.2.kind = .comma →
      (validate v c ts).1 = .incomplete) := by
  refine ⟨fun st prev t ts h2 h3 => scan_step_closer_bad st prev t ts h2 h3, ?_, ?_⟩
  · intro v c ts hres hk
    rw [validate_fst]
    simp [postResult, hres, hk]
  · intro v c ts hres hk
    rw [validate_fst]
    simp [postResult, hres, hk]

/-- Witness for C1 at concrete inputs: a lone ")" scans to `invalid` and
validates to `invalid`, while ",)" — where the token before the offending closer
is a comma — validates to `incomplete`. -/
theorem C1_unmatched_closer_witness :
    scan [] initTok [⟨.r_paren, ")"⟩] = ([], .invalid, initTok)
      ∧ (validate freshValidator ")" [⟨.r_paren, ")"⟩]).1 = .invalid
      ∧ (validate freshValidator ",)" toksCommaClose).1 = .incomplete :=
  ⟨C1_unmatched_closer_invalid_unless_comma.1 [] initTok ⟨.r_paren, ")"⟩ []
      (by decide) (by decide),
    C1_unmatched_closer_invalid_unless_comma.2.1 freshValidator ")" [⟨.r_paren, ")"⟩]
      (by decide) (by decide),
    C1_unmatched_closer_invalid_unless_comma.2.2 freshValidator ",)" toksCommaClose
      (by decide) (by decide)⟩

/-- C1 counterexample: the fragment ",)" reaches its closing parenthesis with an
empty balance stack and the loop flags `invalid`, yet `validate` returns
`incomplete`, not `invalid` — the trailing-comma condition displaces the failure
verdict, so `Invalid` is not undisplaceable as the claim states. -/
theorem C1_cex :
    (scan [] initTok [⟨.comma, ","⟩]).1 = []
      ∧ (scan freshValidator.parenStack initTok toksCommaClose).2.1 = .invalid
      ∧ (validate freshValidator ",)" toksCommaClose).1 = .incomplete
      ∧ ValidationResult.incomplete ≠ .invalid := by
  exact ⟨by decide, by decide, by decide, by decide⟩

/-- C2 (amended): a fragment whose token stream contains no bracket tokens and
also no `#` tokens, and whose last token is not a comma, validates as `complete`
when the balance stack is empty. -/
theorem C2_no_brackets_complete (v : Validator) (c : String) (ts : List Token)
    (hstack : v.parenStack = [])
    (htoks : ∀ t ∈ ts, isOpenerKind t.kind = false ∧ isCloserKind t.kind = false
      ∧ t.kind ≠ .hash)
    (hlast : (ts.getLastD initTok).kind ≠ .comma) :
    (validate v c ts).1 = .complete := by
  have h := scan_nostructural ts v.parenStack initTok htoks
  rw [validate_fst, h]
  simp [postResult, hstack]
  simpa using hlast

/-- Witness for C2 at a concrete input: "x;" validates as `complete` on a fresh
validator. -/
theorem C2_no_brackets_witness :
    (validate freshValidator "x;" toksStmt).1 = .complete :=
  C2_no_brackets_complete freshValidator "x;" toksStmt (by decide) (by decide) (by decide)

/-- C2 counterexample: "#endif" lexes to a hash token and a directive token —
no bracket tokens, last meaningful token not a comma, empty balance stack — yet
a fresh validator returns `invalid`, not `complete`: preprocessor directives
affect the verdict although the claim's hypothesis does not exclude them. -/
theorem C2_cex :
    (∀ t ∈ toksEndif, isOpenerKind t.kind = false ∧ isCloserKind t.kind = false)
      ∧ (toksEndif.getLastD initTok).kind ≠ .comma
      ∧ freshValidator.parenStack = []
      ∧ (validate freshValidator "#endif" toksEndif).1 = .invalid
      ∧ ValidationResult.invalid ≠ .complete := by
  exact ⟨by decide, by decide, by decide, by decide, by decide⟩

/-- C3 counterexample: scanning the prefix "Foo<" of "Foo<Bar\x7b1,2\x7d>"
leaves the balance stack empty — the `<` token is not pushed as a template
marker (the `less` kind falls into the switch's default case) — although the
whole fragment does validate as `complete`. -/
theorem C3_cex :
    (scan [] initTok (toksFooBar.take 2)).1 = []
      ∧ ([] : List Nat) ≠ [tokCode .less]
      ∧ (validate freshValidator "Foo<Bar\x7b1,2\x7d>" toksFooBar).1 = .complete := by
  exact ⟨by decide, by decide, by decide⟩

/-- C3 (amended): "Foo<Bar\x7b1,2\x7d>" validates as `complete` on a fresh
validator, but not by the claimed mechanism: `<` and `>` have no structural
effect — after "Foo<" the stack is empty, after "Foo<Bar\x7b" it holds exactly
the open-brace entry, and the closing brace pops just that entry (the
template-marker branch cannot fire because no `less` entry ever exists); the
trailing `>` is likewise inert and the final stack is empty. -/
theorem C3_complete_without_template_marker :
    (validate freshValidator "Foo<Bar\x7b1,2\x7d>" toksFooBar).1 = .complete
      ∧ (scan [] initTok (toksFooBar.take 2)).1 = []
      ∧ (scan [] initTok (toksFooBar.take 4)).1 = [tokCode .l_brace]
      ∧ (scan [] initTok (toksFooBar.take 8)).1 = []
      ∧ (validate freshValidator "Foo<Bar\x7b1,2\x7d>" toksFooBar).2.parenStack = [] := by
  exact ⟨by decide, by decide, by decide, by decide, by decide⟩

/-- C4: whenever the last meaningful token the loop observed is a comma,
`validate` returns `incomplete` — even when the balance stack is empty, and even
overriding an `invalid` loop verdict; equivalently, a fragment whose final token
is a comma and whose scan does not abort as `invalid` yields `incomplete`.  The
spec's example holds: "foo(1, 2," is `incomplete`, and "3)" on the same
validator then yields `complete`. -/
theorem C4_trailing_comma_incomplete :
    (∀ (v : Validator) (c : String) (ts : List Token),
      (scan v.parenStack initTok ts).2.2.kind = .comma →
      (validate v c ts).1 = .incomplete)
    ∧ (∀ (v : Validator) (c : String) (ts : List Token),
      (ts.getLastD initTok).kind = .comma →
      (scan v.parenStack initTok ts).2.1 ≠ .invalid →
      (validate v c ts).1 = .incomplete)
    ∧ (validate freshValidator "foo(1, 2," toksFooOpen).1 = .incomplete
    ∧ (validate (validate freshValidator "foo(1, 2," toksFooOpen).2 "3)" toksThreeClose).1
        = .complete := by
  have hfirst : ∀ (v : Validator) (c : String) (ts : List Token),
      (scan v.parenStack initTok ts).2.2.kind = .comma →
      (validate v c ts).1 = .incomplete := by
    intro v c ts hk
    rw [validate_fst]
    simp [postResult, hk]
  refine ⟨hfirst, ?_, by decide, by decide⟩
  intro v c ts hlast hres
  refine hfirst v c ts ?_
  rw [scan_getLastD v.parenStack initTok ts hres (by rw [hlast]; decide)]
  exact hlast

/-- Witness for C4 at concrete inputs: a lone comma and "a," each validate as
`incomplete` on a fresh validator. -/
theorem C4_trailing_comma_witness :
    (validate freshValidator "," [⟨.comma, ","⟩]).1 = .incomplete
      ∧ (validate freshValidator "a," [⟨.identifier, "a"⟩, ⟨.comma, ","⟩]).1 = .incomplete :=
  ⟨C4_trailing_comma_incomplete.1 freshValidator "," [⟨.comma, ","⟩] (by decide),
    C4_trailing_comma_incomplete.2.1 freshValidator "a," [⟨.identifier, "a"⟩, ⟨.comma, ","⟩]
      (by decide) (by decide)⟩

/-- C5: after a `#`, a directive token whose text begins with "if" pushes the
preprocessor-conditional marker; one whose text begins with "endif" followed by
end-of-text, '/', or whitespace pops the marker when it is on top, and turns the
verdict `invalid` when the stack is empty or its top is not the marker.  The
spec's examples hold: "#if X" alone is `incomplete`, "#endif" on the same
validator then completes, and "#endif" on a fresh validator is `invalid`. -/
theorem C5_preprocessor_conditionals :
    (∀ (st : List Nat) (prev ht d : Token) (ts : List Token),
      ht.kind = .hash → textStartsWith d.text "if" = true →
      scan st prev (ht :: d :: ts) = scan (tokCode .hash :: st) d ts)
    ∧ (∀ (st : List Nat) (prev ht d : Token) (ts : List Token),
      ht.kind = .hash → textStartsWith d.text "if" = false → endifGuard d.text = true →
      st.headD 0 = tokCode .hash → st ≠ [] →
      scan st prev (ht :: d :: ts) = scan st.tail d ts)
    ∧ (∀ (st : List Nat) (prev ht d : Token) (ts : List Token),
      ht.kind = .hash → textStartsWith d.text "if" = false → endifGuard d.text = true →
      st.headD 0 ≠ tokCode .hash ∨ st = [] →
      scan st prev (ht :: d :: ts) = (st, .invalid, prev))
    ∧ (validate freshValidator "#if X" toksIfX).1 = .incomplete
    ∧ (validate (validate freshValidator "#if X" toksIfX).2 "#endif" toksEndif).1 = .complete
    ∧ (validate freshValidator "#endif" toksEndif).1 = .invalid := by
  refine ⟨fun st prev ht d ts hh hd => scan_step_hash_if st prev ht d ts hh hd,
    fun st prev ht d ts hh hd1 hd2 htop hne =>
      scan_step_hash_endif_pop st prev ht d ts hh hd1 hd2 htop hne,
    fun st prev ht d ts hh hd1 hd2 htop =>
      scan_step_hash_endif_bad st prev ht d ts hh hd1 hd2 htop,
    by decide, by decide, by decide⟩

/-- Witness for C5 at concrete inputs: the push, pop, and invalid behaviours of
the directive arms on explicit token lists. -/
theorem C5_preprocessor_witness :
    scan [] initTok [⟨.hash, "#"⟩, ⟨.identifier, "if"⟩, ⟨.identifier, "X"⟩]
        = ([tokCode .hash], .complete, ⟨.identifier, "X"⟩)
      ∧ scan [tokCode .hash] initTok [⟨.hash, "#"⟩, ⟨.identifier, "endif"⟩]
        = ([], .complete, ⟨.identifier, "endif"⟩)
      ∧ scan [] initTok [⟨.hash, "#"⟩, ⟨.identifier, "endif"⟩]
        = ([], .invalid, initTok) := by
  refine ⟨?_, ?_, ?_⟩
  · rw [C5_preprocessor_conditionals.1 [] initTok ⟨.hash, "#"⟩ ⟨.identifier, "if"⟩
      [⟨.identifier, "X"⟩] rfl (by decide)]
    decide
  · rw [C5_preprocessor_conditionals.2.1 [tokCode .hash] initTok ⟨.hash, "#"⟩
      ⟨.identifier, "endif"⟩ [] rfl (by decide) (by decide) (by decide) (by decide)]
    decide
  · exact C5_preprocessor_conditionals.2.2.1 [] initTok ⟨.hash, "#"⟩ ⟨.identifier, "endif"⟩
      [] rfl (by decide) (by decide) (Or.inr rfl)

/-- C6: a fragment ending with an opener among square, brace, paren whose scan
finishes (result `complete`) with exactly that opener unmatched validates as
`incomplete`, the opener's kind stays on the balance stack after the call, and a
second call supplying only the matching closer then yields `complete`. -/
theorem C6_unmatched_opener_incomplete (v : Validator) (c1 c2 s2 : String)
    (ts0 : List Token) (ot : Token) (hop : isOpenerKind ot.kind = true)
    (lastT : Token)
    (hscan : scan v.parenStack initTok (ts0 ++ [ot])
      = ([tokCode ot.kind], .complete, lastT)) :
    (validate v c1 (ts0 ++ [ot])).1 = .incomplete
      ∧ (validate v c1 (ts0 ++ [ot])).2.parenStack = [tokCode ot.kind]
      ∧ (validate (validate v c1 (ts0 ++ [ot])).2 c2
          [⟨matchingCloser ot.kind, s2⟩]).1 = .complete := by
  have hgl : (ts0 ++ [ot]).getLastD initTok = ot := List.getLastD_concat _ _ _
  have hlast2 : lastT = ot := by
    have h := scan_getLastD v.parenStack initTok (ts0 ++ [ot])
      (by rw [hscan]; simp) (by rw [hgl]; exact opener_ne_hash ot.kind hop)
    rw [hscan, hgl] at h
    exact h
  rw [hlast2] at hscan
  have hv2 : (validate v c1 (ts0 ++ [ot])).2.parenStack = [tokCode ot.kind] := by
    rw [validate_parenStack, hscan]
  refine ⟨?_, hv2, ?_⟩
  · rw [validate_fst, hscan]
    simp [postResult, opener_ne_comma ot.kind hop]
  · rw [validate_fst, hv2, scan_single_matching_closer ot.kind hop s2]
    simp [postResult, closer_ne_comma (matchingCloser ot.kind) (matchingCloser_closer ot.kind hop)]

/-- Witness for C6 at a concrete input: "(" is `incomplete`, keeps the
open-paren code on the stack, and a following ")" completes. -/
theorem C6_unmatched_opener_witness :
    (validate freshValidator "(" [⟨.l_paren, "("⟩]).1 = .incomplete
      ∧ (validate freshValidator "(" [⟨.l_paren, "("⟩]).2.parenStack = [tokCode .l_paren]
      ∧ (validate (validate freshValidator "(" [⟨.l_paren, "("⟩]).2 ")"
          [⟨.r_paren, ")"⟩]).1 = .complete := by
  have h := C6_unmatched_opener_incomplete freshValidator "(" ")" ")" [] ⟨.l_paren, "("⟩
    (by decide) ⟨.l_paren, "("⟩ (by decide)
  simpa [matchingCloser] using h

/-- C7: throughout a token scan the balance stack evolves exactly as the spec's
unmatched-opener semantics prescribes: from every starting stack free of the
template marker (as every reachable stack is), the loop's final stack and result
coincide with `specScan`, the stack machine that pushes exactly on openers and
`#if`-class directives and pops exactly on matching closers and `#endif` popping
the corresponding top entry; in particular the stack depth always equals the
number of currently unmatched openers, the length of the spec-side stack. -/
theorem C7_stack_depth_is_unmatched_openers (st : List Nat) (prev : Token)
    (ts : List Token) (hless : tokCode .less ∉ st) :
    (scan st prev ts).1 = (specScan st ts).1
      ∧ (scan st prev ts).2.1 = (specScan st ts).2
      ∧ (scan st prev ts).1.length = (specScan st ts).1.length := by
  obtain ⟨h1, h2⟩ := scan_agree st prev ts hless
  exact ⟨h1, h2, by rw [h1]⟩

/-- Witness for C7 at a concrete input. -/
theorem C7_stack_depth_witness :
    (scan [] initTok toksFooBar).1 = (specScan [] toksFooBar).1
      ∧ (scan [] initTok toksIfX).1.length = (specScan [] toksIfX).1.length :=
  ⟨(C7_stack_depth_is_unmatched_openers [] initTok toksFooBar (by decide)).1,
    (C7_stack_depth_is_unmatched_openers [] initTok toksIfX (by decide)).2.2⟩

/-- C8 (amended): every `validate` call appends its fragment to the buffer,
preceded by a newline exactly when the buffer was non-empty, regardless of the
verdict; consequently, for every turn whose first fragment is non-empty, the
buffer `reset` hands back equals the newline-joined concatenation of all
fragments passed since the previous reset.  (When the turn opens with an empty
fragment the newline is skipped, which the counterexample exhibits.) -/
theorem C8_buffer_roundtrip :
    (∀ (v : Validator) (c : String) (ts : List Token),
      (validate v c ts).2.input = if v.input = "" then c else v.input ++ "\n" ++ c)
    ∧ (∀ calls : List (String × List Token),
      (∀ p ∈ calls.head?, p.1 ≠ "") →
      (reset (foldValidate freshValidator calls)).1 = newlineJoined (calls.map Prod.fst)) := by
  refine ⟨fun v c ts => rfl, ?_⟩
  intro calls hne
  cases calls with
  | nil => rfl
  | cons p ps =>
    have hp : p.1 ≠ "" := hne p rfl
    show (foldValidate freshValidator (p :: ps)).input = _
    rw [foldValidate_input]
    show joinInto (if ("" : String) = "" then p.1 else "" ++ "\n" ++ p.1) (ps.map Prod.fst) = _
    rw [if_pos rfl, joinInto_eq_newlineJoined (ps.map Prod.fst) p.1 hp]
    rfl

/-- Witness for C8 at concrete inputs. -/
theorem C8_buffer_witness :
    (validate freshValidator "x;" toksStmt).2.input = "x;"
      ∧ (reset (foldValidate freshValidator
          [("foo(1, 2,", toksFooOpen), ("3)", toksThreeClose)])).1 = "foo(1, 2,\n3)" := by
  constructor
  · have h := C8_buffer_roundtrip.1 freshValidator "x;" toksStmt
    simpa [freshValidator] using h
  · have h := C8_buffer_roundtrip.2 [("foo(1, 2,", toksFooOpen), ("3)", toksThreeClose)]
      (by intro p hp; simp [Option.mem_def] at hp; subst hp; decide)
    rw [h]
    decide

/-- C8 counterexample: a turn whose first fragment is the empty string breaks
the round trip — validating "" and then "x" accumulates the buffer "x", while
the newline-joined concatenation of the two fragments is the distinct string
"\nx" (the first append skips the newline because the buffer is still empty). -/
theorem C8_cex :
    (reset (foldValidate freshValidator [("", []), ("x", [⟨.identifier, "x"⟩])])).1 = "x"
      ∧ newlineJoined ["", "x"] = "\n" ++ "x"
      ∧ ("x" : String) ≠ "\n" ++ "x" := by
  exact ⟨by decide, by decide, by decide⟩

/-- C9: `reset` — with or without an output argument — leaves the validator in
exactly the freshly constructed state: empty balance stack, empty buffer, last
verdict `complete`; hence any subsequent `validate` call returns the same
verdict and the same state as the identical call on a fresh validator, for every
prior session history. -/
theorem C9_reset_restores_fresh (v : Validator) (c : String) (ts : List Token) :
    (reset v).2 = freshValidator
      ∧ resetDiscard v = freshValidator
      ∧ (reset v).2.parenStack = [] ∧ (reset v).2.input = ""
      ∧ (reset v).2.lastResult = .complete
      ∧ validate (reset v).2 c ts = validate freshValidator c ts := by
  exact ⟨rfl, rfl, rfl, rfl, rfl, rfl⟩

/-- C10: on every reachable validator state the balance stack holds only the
codes of open-square, open-paren, open-brace and the hash conditional marker —
the property holds for a fresh validator and is preserved by every `validate`
and every `reset` — and on such stacks the `less` template marker is never
present, so the scan coincides with the branchless `specScan` semantics: the
closing-brace branch that would pop a template marker never fires. -/
theorem C10_less_never_pushed :
    (∀ (st : List Nat) (prev : Token) (ts : List Token), stackPushable st →
      stackPushable (scan st prev ts).1 ∧ tokCode .less ∉ (scan st prev ts).1
        ∧ (scan st prev ts).1 = (specScan st ts).1)
    ∧ (∀ (v : Validator) (c : String) (ts : List Token), stackPushable v.parenStack →
      stackPushable (validate v c ts).2.parenStack)
    ∧ stackPushable freshValidator.parenStack
    ∧ (∀ v : Validator, stackPushable (reset v).2.parenStack
        ∧ stackPushable (resetDiscard v).parenStack) := by
  have hpush : ∀ (st : List Nat) (prev : Token) (ts : List Token), stackPushable st →
      stackPushable (scan st prev ts).1 := by
    intro st prev ts hst x hx
    rcases scan_stack_elems st prev ts x hx with h | h
    · exact hst x h
    · exact h
  have hnoless : ∀ st : List Nat, stackPushable st → tokCode .less ∉ st := by
    intro st hst hmem
    rcases hst _ hmem with h | h | h | h <;> simp [tokCode] at h
  refine ⟨fun st prev ts hst => ⟨hpush st prev ts hst, hnoless _ (hpush st prev ts hst),
      (scan_agree st prev ts (hnoless st hst)).1⟩, ?_, ?_, ?_⟩
  · intro v c ts hst
    rw [validate_parenStack]
    exact hpush v.parenStack initTok ts hst
  · intro x hx
    simp [freshValidator] at hx
  · intro v
    constructor <;> intro x hx <;> simp [reset, resetDiscard] at hx

/-- Witness for C10 at concrete inputs. -/
theorem C10_less_witness :
    stackPushable (scan [] initTok toksFooBar).1
      ∧ (scan [] initTok toksFooBar).1 = (specScan [] toksFooBar).1
      ∧ stackPushable (validate freshValidator "(" [⟨.l_paren, "("⟩]).2.parenStack := by
  refine ⟨(C10_less_never_pushed.1 [] initTok toksFooBar ?_).1,
    (C10_less_never_pushed.1 [] initTok toksFooBar ?_).2.2,
    C10_less_never_pushed.2.1 freshValidator "(" [⟨.l_paren, "("⟩] ?_⟩ <;>
    (intro x hx; simp [freshValidator] at hx)

end XeusCpp
